import Mathlib

/-!
Verification of the PaddleOCR-VL client/server orchestration layer.

The development shallowly embeds the Python sources:
- the server endpoints and result aggregation of main.py,
- the client-side regrouping and persistence writer of test.py,
with strings embedded as Lean String values and the relevant Python
string/path primitives modelled as executable Lean functions.
-/

/-! ## Python string and path primitives -/

/-- Splitting a character list on a separator character, accumulating the
current (reversed) piece; mirrors the behaviour of Python str.split(sep). -/
def splitCharAux (c : Char) : List Char → List Char → List (List Char)
  | [], acc => [acc.reverse]
  | x :: xs, acc =>
      if x = c then acc.reverse :: splitCharAux c xs []
      else splitCharAux c xs (x :: acc)

/-- Python str.split(sep) for a one-character separator. -/
def splitOnChar (c : Char) (s : String) : List String :=
  (splitCharAux c s.data []).map String.mk

/-- Joining string pieces with a one-character separator, the inverse of
splitOnChar; mirrors Python sep.join(parts). -/
def joinWithChar (c : Char) : List String → String
  | [] => ""
  | [s] => s
  | s :: rest => s ++ String.mk [c] ++ joinWithChar c rest

/-- Python str.endswith(suf). -/
def strEndsWith (s suf : String) : Bool :=
  List.isSuffixOf suf.data s.data

/-- Dropping the last n characters of a string, as Python s[:-n] does for
0 < n <= len(s). -/
def strDropRight (s : String) (n : Nat) : String :=
  String.mk (s.data.take (s.data.length - n))

/-- Python str.removesuffix(suf): drop the suffix when it is present,
otherwise return the string unchanged. -/
def removeSuffix (s suf : String) : String :=
  if strEndsWith s suf then strDropRight s suf.length else s

/-- Python str.lower() restricted to the ASCII range, which is all the
extension comparison in the source needs. -/
def lowerStr (s : String) : String :=
  String.mk (s.data.map Char.toLower)

/-- Python truthiness of an optional string combined with the "or" default,
as in the source's (file.filename or "upload"): None and the empty string
both fall back to the default. -/
def pyOr (o : Option String) (d : String) : String :=
  match o with
  | none => d
  | some s => if s = "" then d else s

/-- Pathlib Path(s).name: the final path component, with empty and
single-dot components dropped during parsing. -/
def pathName (s : String) : String :=
  ((splitOnChar '/' s).filter (fun p => p ≠ "" ∧ p ≠ ".")).getLastD ""

/-- Pathlib Path(s).suffix on a final component: the substring from the last
dot on, except that a leading dot or a trailing dot yields the empty suffix. -/
def pathSuffix (name : String) : String :=
  let parts := splitOnChar '.' name
  if parts.length ≤ 1 then ""
  else
    let last := parts.getLastD ""
    let pre := joinWithChar '.' parts.dropLast
    if pre ≠ "" ∧ last ≠ "" then "." ++ last else ""

/-- Pathlib Path(s).stem: the name with its suffix removed. -/
def pathStem (name : String) : String :=
  strDropRight name (pathSuffix name).length

/-- Lexicographic comparison of character lists by code point, the order
Python uses to compare strings (and hence Path objects in one directory). -/
def listCharLe : List Char → List Char → Bool
  | [], _ => true
  | _ :: _, [] => false
  | a :: as, b :: bs => if a = b then listCharLe as bs else decide (a < b)

/-- Python string comparison s1 <= s2 by code point. -/
def strLe (a b : String) : Bool :=
  listCharLe a.data b.data

/-- Inserting a string into an already sorted list, keeping the order. -/
def insertSorted (x : String) : List String → List String
  | [] => [x]
  | y :: ys => if strLe x y then x :: y :: ys else y :: insertSorted x ys

/-- Python sorted() on a list of strings (stable insertion sort). -/
def sortStrings : List String → List String
  | [] => []
  | x :: xs => insertSorted x (sortStrings xs)

/-- Decimal digit character. -/
def digitChar (n : Nat) : Char := Char.ofNat (48 + n)

/-- Decimal digits of n, with structural fuel so the definition evaluates
inside the kernel. -/
def natDigitsAux : Nat → Nat → List Char
  | 0, _ => []
  | fuel + 1, n =>
      if n < 10 then [digitChar n]
      else natDigitsAux fuel (n / 10) ++ [digitChar (n % 10)]

/-- Python str(n) for a natural number. -/
def natToStr (n : Nat) : String := String.mk (natDigitsAux (n + 1) n)

/-! ## Data model (models.py) and server operations (main.py) -/

/-- Allowed upload extensions, from main.py. -/
def ALLOWED_EXTENSIONS : List String :=
  [".pdf", ".png", ".jpg", ".jpeg", ".bmp", ".tiff", ".webp"]

/-- An uploaded multipart file: FastAPI UploadFile restricted to the fields
the handlers read (the filename may be missing). -/
structure UploadFile where
  filename : Option String
  content : String
deriving DecidableEq

/-- OCR result for a single page, from models.py: the structured data read
back from the page's json artifact and the markdown text, both optional.
The structured document is kept as the raw text that was read back. -/
structure PageData where
  json : Option String
  markdown : Option String
deriving DecidableEq

/-- Response of the single-file endpoint, from models.py. The pages mapping
is a Python dict kept in insertion order with distinct keys. -/
structure OCRResponse where
  filename : Option String
  page_count : Nat
  pages : List (String × PageData)
deriving DecidableEq

/-- Response of the batch endpoint, from models.py. -/
structure BatchOCRResponse where
  filenames : List String
  page_count : Nat
  pages : List (String × PageData)
deriving DecidableEq

/-- Outcome of the single-file endpoint: a response or an HTTPException
status code. -/
inductive SingleResult where
  | ok : OCRResponse → SingleResult
  | err : Nat → SingleResult
deriving DecidableEq

/-- Outcome of the batch endpoint. -/
inductive BatchResult where
  | ok : BatchOCRResponse → BatchResult
  | err : Nat → BatchResult
deriving DecidableEq

/-- Observable side effects of a request: whether the staging directories
were created, which file names were staged, and whether the external
pipeline was invoked. -/
structure Effects where
  stagingCreated : Bool
  stagedFiles : List String
  pipelineCalled : Bool
deriving DecidableEq

/-- Effects of a request that was rejected before staging. -/
def noEffects : Effects := ⟨false, [], false⟩

/-- The extension check both handlers perform:
Path(file.filename or "").suffix.lower(). -/
def fileExtOf (filename : Option String) : String :=
  lowerStr (pathSuffix (pathName (pyOr filename "")))

/-- Reading a file from a directory listing (name, content): some content
when the name is present, none otherwise; models the exists()/read_text()
pair in the aggregation loop. -/
def lookupFile (dir : List (String × String)) (n : String) : Option String :=
  (dir.find? (fun p => p.1 = n)).map Prod.snd

/-- Result aggregation of _process_with_pipeline (main.py): glob the
temporary output directory for *_res.json artifacts, sort them, and key
each page by the artifact stem; the markdown companion is the stem with
the _res suffix removed plus ".md", and is optional. -/
def aggregatePages (outDir : List (String × String)) : List (String × PageData) :=
  let jsonFiles :=
    sortStrings ((outDir.map Prod.fst).filter (fun n => strEndsWith n "_res.json"))
  jsonFiles.map fun jf =>
    let page_name := pathStem jf
    let base_name := removeSuffix page_name "_res"
    let md_file := base_name ++ ".md"
    (page_name, ⟨lookupFile outDir jf, lookupFile outDir md_file⟩)

/-- The external pipeline invocation: from the staged input paths it either
writes a set of artifact files (name, content) into the temporary output
directory, or raises. The pipeline is an external collaborator, so the
endpoint models are parametric in it. -/
def PipelineRun : Type := List String → Except String (List (String × String))

/-- Staged file names of the batch endpoint, in submission order:
Path(file.filename or f"file_{i}").name where i is the running count. -/
def stageNames (files : List UploadFile) : List String :=
  files.enum.map fun p => pathName (pyOr p.2.filename ("file_" ++ natToStr p.1))

/-- The single-file endpoint process_file of main.py: 503 when the pipeline
is not initialized, 400 on a bad extension (before staging), otherwise
stage the upload, run the pipeline, and aggregate; a pipeline fault maps
to 500. -/
def processFileEndpoint (pipelineReady : Bool) (run : PipelineRun)
    (file : UploadFile) : SingleResult × Effects :=
  if !pipelineReady then (.err 503, noEffects)
  else if fileExtOf file.filename ∉ ALLOWED_EXTENSIONS then (.err 400, noEffects)
  else
    let safe_name := pathName (pyOr file.filename "upload")
    match run [safe_name] with
    | .ok artifacts =>
        let results := aggregatePages artifacts
        (.ok ⟨file.filename, results.length, results⟩, ⟨true, [safe_name], true⟩)
    | .error _ => (.err 500, ⟨true, [safe_name], true⟩)

/-- The batch endpoint process_files of main.py: 503 when the pipeline is
not initialized, 400 when no files were sent, 400 when any file has a bad
extension (the validation loop runs before any staging), otherwise stage
all uploads, run the pipeline once, and aggregate. -/
def processFilesEndpoint (pipelineReady : Bool) (run : PipelineRun)
    (files : List UploadFile) : BatchResult × Effects :=
  if !pipelineReady then (.err 503, noEffects)
  else if files.isEmpty then (.err 400, noEffects)
  else if files.any (fun f => decide (fileExtOf f.filename ∉ ALLOWED_EXTENSIONS)) then
    (.err 400, noEffects)
  else
    let safeNames := stageNames files
    let filenames := files.enum.map fun p => pyOr p.2.filename (pathName (pyOr p.2.filename ("file_" ++ natToStr p.1)))
    match run safeNames with
    | .ok artifacts =>
        let results := aggregatePages artifacts
        (.ok ⟨filenames, results.length, results⟩, ⟨true, safeNames, true⟩)
    | .error _ => (.err 500, ⟨true, safeNames, true⟩)

/-! ## Client-side regrouping and persistence (test.py) -/

/-- Base-name computation of the client's batch regrouping (test.py):
page_name.rsplit("_", 1)[0] if "_" in page_name else page_name. -/
def baseNameOf (page_name : String) : String :=
  let parts := splitOnChar '_' page_name
  if parts.length = 1 then page_name
  else joinWithChar '_' parts.dropLast

/-- Inserting one page under its base name into the grouped mapping, with
Python dict insertion-order semantics (the page is appended to an existing
group, or a new group is appended at the end). -/
def addToGroup (groups : List (String × List (String × α)))
    (b pn : String) (pd : α) : List (String × List (String × α)) :=
  match groups with
  | [] => [(b, [(pn, pd)])]
  | (g, ps) :: rest =>
      if g = b then (g, ps ++ [(pn, pd)]) :: rest
      else (g, ps) :: addToGroup rest b pn pd

/-- Regrouping of _process_batch (test.py): every page of the batch response
is filed under the base name extracted from its page name. -/
def regroupPages (pages : List (String × α)) : List (String × List (String × α)) :=
  pages.foldl (fun acc p => addToGroup acc (baseNameOf p.1) p.1 p.2) []

/-- Parsed JSON value as Python json.loads produces it; numbers are kept as
integers, which covers every payload the models of this repository emit. -/
inductive PyJson where
  | null : PyJson
  | bool : Bool → PyJson
  | num : Int → PyJson
  | str : String → PyJson
  | arr : List PyJson → PyJson
  | obj : List (String × PyJson) → PyJson

/-- Python truthiness of a parsed JSON value: None, False, 0, empty string,
empty list and empty dict are falsy. -/
def pythonTruthy : PyJson → Bool
  | .null => false
  | .bool b => b
  | .num n => n ≠ 0
  | .str s => s ≠ ""
  | .arr xs => !xs.isEmpty
  | .obj fs => !fs.isEmpty

/-- Two spaces per indentation level, the indent=2 convention. -/
def indentSp (d : Nat) : String := String.mk (List.replicate (2 * d) ' ')

/-- Hexadecimal digit character. -/
def hexDigit (n : Nat) : Char :=
  if n < 10 then Char.ofNat (48 + n) else Char.ofNat (87 + n)

/-- Escaping of one character inside a JSON string with ensure_ascii=False:
quote, backslash and control characters are escaped, every other character
(non-ASCII included) is kept as it is. -/
def escapeJsonChar (c : Char) : String :=
  if c = '"' then "\\\""
  else if c = '\\' then "\\\\"
  else if c = '\n' then "\\n"
  else if c = '\t' then "\\t"
  else if c = '\r' then "\\r"
  else if c = '\x08' then "\\b"
  else if c = '\x0c' then "\\f"
  else if c.toNat < 32 then
    "\\u00" ++ String.mk [hexDigit (c.toNat / 16), hexDigit (c.toNat % 16)]
  else String.mk [c]

/-- JSON string literal with ensure_ascii=False. -/
def pyDumpsStr (s : String) : String :=
  "\"" ++ String.join (s.data.map escapeJsonChar) ++ "\""

mutual
/-- Modelled from the spec: json.dumps(v, ensure_ascii=False, indent=2) of
the standard library (the persistence writer's serialization, spec 4.5):
UTF-8 JSON that preserves non-ASCII characters and indents nested
containers by two spaces per level. -/
def pyDumpsVal : PyJson → Nat → String
  | .null, _ => "null"
  | .bool true, _ => "true"
  | .bool false, _ => "false"
  | .num n, _ => toString n
  | .str s, _ => pyDumpsStr s
  | .arr xs, d =>
      if xs.isEmpty then "[]"
      else "[\n" ++ pyDumpsItems xs (d + 1) ++ "\n" ++ indentSp d ++ "]"
  | .obj fs, d =>
      if fs.isEmpty then "\x7b\x7d"
      else "\x7b\n" ++ pyDumpsFields fs (d + 1) ++ "\n" ++ indentSp d ++ "\x7d"

/-- Array items, one per line at the given indentation. -/
def pyDumpsItems : List PyJson → Nat → String
  | [], _ => ""
  | [x], d => indentSp d ++ pyDumpsVal x d
  | x :: y :: xs, d =>
      indentSp d ++ pyDumpsVal x d ++ ",\n" ++ pyDumpsItems (y :: xs) d

/-- Object fields, one per line at the given indentation. -/
def pyDumpsFields : List (String × PyJson) → Nat → String
  | [], _ => ""
  | [(k, v)], d => indentSp d ++ pyDumpsStr k ++ ": " ++ pyDumpsVal v d
  | (k, v) :: f :: fs, d =>
      indentSp d ++ pyDumpsStr k ++ ": " ++ pyDumpsVal v d ++ ",\n" ++
        pyDumpsFields (f :: fs) d
end

/-- Top-level json.dumps(v, ensure_ascii=False, indent=2). -/
def pyDumps (v : PyJson) : String := pyDumpsVal v 0

/-- One entry of the decoded response's pages mapping as the client sees it
(test.py): page_data.get("markdown") and page_data.get("json"); json null
decodes to Python None, hence to none here. -/
structure ClientPageData where
  markdown : Option String
  json : Option PyJson

/-- What save_results does to the filesystem: the subdirectory it ensures
exists and the (path, content) writes it performs, in order. -/
structure SaveOutput where
  createdDir : String
  writes : List (String × String)
deriving DecidableEq

/-- Path.mkdir(parents=True, exist_ok=True) on a set of existing
directories: creating an already existing directory is not an error and
leaves the set unchanged. -/
def mkdirExistOk (dirs : List String) (d : String) : List String :=
  if d ∈ dirs then dirs else dirs ++ [d]

/-- Writes of save_results (test.py) for one page: the markdown goes to
<page_name>.md when truthy, the structured data to <page_name>.json when
truthy, serialized with ensure_ascii=False and indent=2. -/
def pageWrites (dir : String) (p : String × ClientPageData) : List (String × String) :=
  (match p.2.markdown with
   | some m => if m ≠ "" then [(dir ++ "/" ++ p.1 ++ ".md", m)] else []
   | none => []) ++
  (match p.2.json with
   | some j => if pythonTruthy j then [(dir ++ "/" ++ p.1 ++ ".json", pyDumps j)] else []
   | none => [])

/-- The persistence writer save_results (test.py): ensure the subdirectory
output_dir/base_name exists, then write each page's artifacts. -/
def save_results (pages : List (String × ClientPageData))
    (base_name : String) (output_dir : String) : SaveOutput :=
  let file_output_dir := output_dir ++ "/" ++ base_name
  ⟨file_output_dir, pages.flatMap (pageWrites file_output_dir)⟩

/-! ## The external pipeline's artifact naming, modelled from the spec -/

/-- Page identifiers of one source file, in page order. -/
def pageIds (base : String) (k : Nat) : List String :=
  if k = 1 then [base]
  else (List.range k).map fun i => base ++ "_" ++ natToStr i

/-- Modelled from the spec: the artifact files the external PaddleOCR
pipeline writes into the temporary output directory (spec sections 3, 4.2
and 6, missing from src/ because the pipeline is the external
collaborator). A batch input is a list of (base name, page count) pairs in
submission order; for each page the pipeline writes a structured document
<page>_res.json and a markdown document <page>.md, where <page> is the
source's base name for a single-page source and base_i with the zero-based
page ordinal i for a multi-page source. -/
def pipelineArtifacts (inputs : List (String × Nat)) : List (String × String) :=
  inputs.flatMap fun p =>
    (pageIds p.1 p.2).flatMap fun pid =>
      [(pid ++ "_res.json", "json-of-" ++ pid), (pid ++ ".md", "md-of-" ++ pid)]

/-- Modelled from the spec: the pipeline's deterministic page output order
(file submission order first, then intra-file page order), expressed with
the page names the aggregation step assigns (artifact stem, section 4.3). -/
def pipelinePageOrder (inputs : List (String × Nat)) : List String :=
  inputs.flatMap fun p => (pageIds p.1 p.2).map fun pid => pid ++ "_res"

/-- Modelled from the spec: the original source-file-to-pages partition of a
batch input, keyed by each source's base name (spec section 8). -/
def originalPartition (inputs : List (String × Nat)) : List (String × List String) :=
  inputs.map fun p => (p.1, (pageIds p.1 p.2).map fun pid => pid ++ "_res")

/-! ## Proof-support definitions -/

/-- Character-list level join, the list counterpart of joinWithChar. -/
def joinChar (c : Char) : List (List Char) → List Char
  | [] => []
  | [l] => l
  | l :: l2 :: rest => l ++ c :: joinChar c (l2 :: rest)

/-- A pipeline stand-in that writes no artifacts; used to instantiate the
endpoint theorems at concrete inputs. -/
def runEmpty : PipelineRun := fun _ => Except.ok []

/-- A pipeline stand-in producing the artifacts of one single-page source
named doc; used to instantiate the endpoint theorems at concrete inputs. -/
def runOneDoc : PipelineRun := fun _ => Except.ok (pipelineArtifacts [("doc", 1)])

/-! ## Lemmas about the string primitives -/

theorem str_data_inj {x y : String} (h : x.data = y.data) : x = y := by
  cases x; cases y; exact congrArg String.mk h

theorem splitCharAux_ne_nil (c : Char) : ∀ (xs acc : List Char), splitCharAux c xs acc ≠ []
  | [], acc => by simp [splitCharAux]
  | x :: xs, acc => by
      rw [splitCharAux]
      split
      · simp
      · exact splitCharAux_ne_nil c xs (x :: acc)

theorem splitCharAux_no_sep (c : Char) :
    ∀ (xs acc : List Char), c ∉ xs → splitCharAux c xs acc = [acc.reverse ++ xs]
  | [], acc, _ => by simp [splitCharAux]
  | x :: xs, acc, h => by
      rw [splitCharAux, if_neg (by rintro rfl; exact h (List.mem_cons_self x xs)),
        splitCharAux_no_sep c xs (x :: acc) (fun hm => h (List.mem_cons_of_mem x hm))]
      simp

theorem splitCharAux_last (c : Char) (ys : List Char) (hys : c ∉ ys) :
    ∀ (xs acc : List Char), ∃ init, init ≠ [] ∧
      splitCharAux c (xs ++ c :: ys) acc = init ++ [ys]
  | [], acc => by
      refine ⟨[acc.reverse], by simp, ?_⟩
      rw [List.nil_append, splitCharAux, if_pos rfl, splitCharAux_no_sep c ys [] hys]
      simp
  | x :: xs, acc => by
      rw [List.cons_append, splitCharAux]
      by_cases hx : x = c
      · obtain ⟨init, hne, heq⟩ := splitCharAux_last c ys hys xs []
        exact ⟨acc.reverse :: init, by simp, by rw [if_pos hx, heq]; simp⟩
      · obtain ⟨init, hne, heq⟩ := splitCharAux_last c ys hys xs (x :: acc)
        exact ⟨init, hne, by rw [if_neg hx, heq]⟩

theorem joinChar_cons_cons (c : Char) (a b : List Char) (t : List (List Char)) :
    joinChar c (a :: b :: t) = a ++ c :: joinChar c (b :: t) := rfl

theorem joinChar_splitCharAux (c : Char) :
    ∀ (xs acc : List Char), joinChar c (splitCharAux c xs acc) = acc.reverse ++ xs
  | [], acc => by simp [splitCharAux, joinChar]
  | x :: xs, acc => by
      rw [splitCharAux]
      by_cases hx : x = c
      · rw [if_pos hx]
        obtain ⟨r, rs, hr⟩ : ∃ r rs, splitCharAux c xs [] = r :: rs :=
          match he : splitCharAux c xs [] with
          | [] => absurd he (splitCharAux_ne_nil c xs [])
          | r :: rs => ⟨r, rs, rfl⟩
        have ih := joinChar_splitCharAux c xs []
        rw [hr] at ih ⊢
        rw [joinChar_cons_cons, ih]
        simp [hx]
      · rw [if_neg hx, joinChar_splitCharAux c xs (x :: acc)]
        simp

theorem joinChar_concat (c : Char) (l : List Char) :
    ∀ (init : List (List Char)), init ≠ [] →
      joinChar c (init ++ [l]) = joinChar c init ++ c :: l
  | [], h => absurd rfl h
  | [a], _ => by simp [joinChar]
  | a :: b :: rest, _ => by
      have ih := joinChar_concat c l (b :: rest) (by simp)
      rw [List.cons_append] at ih
      show joinChar c (a :: b :: (rest ++ [l])) = joinChar c (a :: b :: rest) ++ c :: l
      rw [joinChar_cons_cons c a b (rest ++ [l]), joinChar_cons_cons c a b rest, ih]
      simp

theorem joinWithChar_cons_cons (c : Char) (a b : String) (t : List String) :
    joinWithChar c (a :: b :: t) = a ++ String.mk [c] ++ joinWithChar c (b :: t) := rfl

theorem joinWithChar_map_mk (c : Char) :
    ∀ ls : List (List Char), joinWithChar c (ls.map String.mk) = String.mk (joinChar c ls)
  | [] => rfl
  | [l] => rfl
  | l :: l2 :: rest => by
      have ih := joinWithChar_map_mk c (l2 :: rest)
      rw [List.map_cons] at ih ⊢
      rw [List.map_cons, joinWithChar_cons_cons, ih, joinChar_cons_cons]
      apply str_data_inj
      simp [String.data_append]

theorem strEndsWith_iff {s suf : String} :
    strEndsWith s suf = true ↔ ∃ t, s.data = t ++ suf.data := by
  rw [strEndsWith, List.isSuffixOf_iff_suffix]
  constructor
  · rintro ⟨t, ht⟩; exact ⟨t, ht.symm⟩
  · rintro ⟨t, ht⟩; exact ⟨t, ht.symm⟩

theorem res_json_data : ("_res.json" : String).data
    = ['_', 'r', 'e', 's', '.', 'j', 's', 'o', 'n'] := rfl

/-- Every file name ending in _res.json has pathlib suffix ".json". -/
theorem pathSuffix_res_json {n : String} (h : strEndsWith n "_res.json" = true) :
    pathSuffix n = ".json" := by
  obtain ⟨t, ht⟩ := strEndsWith_iff.mp h
  rw [res_json_data] at ht
  have hshape : n.data = (t ++ ['_', 'r', 'e', 's']) ++ '.' :: ['j', 's', 'o', 'n'] := by
    rw [ht]; simp
  obtain ⟨init, hne, heq⟩ :=
    splitCharAux_last '.' ['j', 's', 'o', 'n'] (by decide) (t ++ ['_', 'r', 'e', 's']) []
  rw [← hshape] at heq
  have hparts : splitOnChar '.' n = (init ++ [['j', 's', 'o', 'n']]).map String.mk := by
    rw [splitOnChar, heq]
  rw [pathSuffix, hparts]
  simp only [List.map_append, List.map_cons, List.map_nil]
  have hlen : ((init ++ [['j', 's', 'o', 'n']]).map String.mk).length = init.length + 1 := by
    simp
  have hinitlen : 1 ≤ init.length := by
    cases init
    · exact absurd rfl hne
    · simp
  have hlast : ((init.map String.mk) ++ [String.mk ['j', 's', 'o', 'n']]).getLastD ""
      = String.mk ['j', 's', 'o', 'n'] := List.getLastD_concat _ _ _
  have hdrop : ((init.map String.mk) ++ [String.mk ['j', 's', 'o', 'n']]).dropLast
      = init.map String.mk := List.dropLast_concat
  simp only [hlast, hdrop]
  have hpre : joinWithChar '.' (init.map String.mk) = String.mk (joinChar '.' init) :=
    joinWithChar_map_mk '.' init
  have hjoin : joinChar '.' (init ++ [['j', 's', 'o', 'n']]) = n.data := by
    have := joinChar_splitCharAux '.' n.data []
    rw [heq] at this
    simpa using this
  rw [joinChar_concat '.' _ init hne] at hjoin
  have hprene : String.mk (joinChar '.' init) ≠ "" := by
    intro hcon
    have hnil : joinChar '.' init = [] := congrArg String.data hcon
    rw [hnil] at hjoin
    have hlen9 : n.data.length = t.length + 9 := by rw [ht]; simp
    rw [← hjoin] at hlen9
    simp at hlen9
  have hcond : ¬(((init.map String.mk) ++ [String.mk ['j', 's', 'o', 'n']]).length ≤ 1) := by
    simp only [List.length_append, List.length_map, List.length_singleton]
    omega
  rw [if_neg hcond, hpre]
  rw [if_pos ⟨hprene, by decide⟩]
  rfl

/-- Every file name ending in _res.json is its stem plus ".json". -/
theorem pathStem_res_json {n : String} (h : strEndsWith n "_res.json" = true) :
    n = pathStem n ++ ".json" := by
  obtain ⟨t, ht⟩ := strEndsWith_iff.mp h
  rw [res_json_data] at ht
  have hdata : n.data = (t ++ ['_', 'r', 'e', 's']) ++ ['.', 'j', 's', 'o', 'n'] := by
    rw [ht]; simp
  have hstem : pathStem n = String.mk (t ++ ['_', 'r', 'e', 's']) := by
    rw [pathStem, pathSuffix_res_json h, strDropRight]
    apply congrArg String.mk
    rw [hdata]
    have hlen5 : (".json" : String).length = 5 := rfl
    have hlen : n.data.length - (".json" : String).length = (t ++ ['_', 'r', 'e', 's']).length := by
      rw [hdata, hlen5]; simp
    rw [hdata] at hlen
    rw [hlen, List.take_left]
  apply str_data_inj
  rw [String.data_append, hstem, hdata]

/-- The stem determines a file name ending in _res.json. -/
theorem pathStem_inj_res_json {a b : String} (ha : strEndsWith a "_res.json" = true)
    (hb : strEndsWith b "_res.json" = true) (h : pathStem a = pathStem b) : a = b := by
  rw [pathStem_res_json ha, pathStem_res_json hb, h]

/-! ## Sorting lemmas -/

theorem insertSorted_perm (x : String) :
    ∀ l : List String, (insertSorted x l).Perm (x :: l)
  | [] => List.Perm.refl _
  | y :: ys => by
      rw [insertSorted]
      split
      · exact List.Perm.refl _
      · exact ((insertSorted_perm x ys).cons y).trans (List.Perm.swap x y ys)

theorem sortStrings_perm : ∀ l : List String, (sortStrings l).Perm l
  | [] => List.Perm.refl _
  | x :: xs => by
      rw [sortStrings]
      exact (insertSorted_perm x (sortStrings xs)).trans ((sortStrings_perm xs).cons x)

theorem listCharLe_total : ∀ a b : List Char, listCharLe a b = true ∨ listCharLe b a = true
  | [], _ => Or.inl rfl
  | _ :: _, [] => Or.inr rfl
  | a :: as, b :: bs => by
      by_cases hab : a = b
      · subst hab
        rcases listCharLe_total as bs with h | h
        · exact Or.inl (by rw [listCharLe, if_pos rfl]; exact h)
        · exact Or.inr (by rw [listCharLe, if_pos rfl]; exact h)
      · rcases lt_trichotomy a b with h | h | h
        · exact Or.inl (by rw [listCharLe, if_neg hab]; simpa using h)
        · exact absurd h hab
        · exact Or.inr (by rw [listCharLe, if_neg (Ne.symm hab)]; simpa using h)

theorem strLe_total (a b : String) : strLe a b = true ∨ strLe b a = true :=
  listCharLe_total a.data b.data

theorem insertSorted_chain (x : String) :
    ∀ l : List String, List.Chain' (fun a b => strLe a b = true) l →
      List.Chain' (fun a b => strLe a b = true) (insertSorted x l)
  | [], _ => List.chain'_singleton x
  | y :: ys, h => by
      rw [insertSorted]
      split
      · exact List.Chain'.cons (by assumption) h
      · rename_i hxy
        have hyx : strLe y x = true := by
          rcases strLe_total x y with hc | hc
        
          · exact absurd hc hxy
          · exact hc
        cases ys with
        | nil =>
            exact List.chain'_pair.mpr hyx
        | cons z zs =>
            rw [insertSorted]
            have htail := (List.chain'_cons.mp h).2
            have hyz := (List.chain'_cons.mp h).1
            split
            · exact List.chain'_cons.mpr ⟨hyx, List.chain'_cons.mpr ⟨by assumption, htail⟩⟩
            · have hrec := insertSorted_chain x (z :: zs) htail
              rw [insertSorted] at hrec
              rw [if_neg (by assumption)] at hrec
              exact List.chain'_cons.mpr ⟨hyz, hrec⟩

theorem sortStrings_chain :
    ∀ l : List String, List.Chain' (fun a b => strLe a b = true) (sortStrings l)
  | [] => List.chain'_nil
  | x :: xs => insertSorted_chain x (sortStrings xs) (sortStrings_chain xs)

theorem chain'_imp_mem {S R : String → String → Prop} :
    ∀ l : List String, List.Chain' R l →
      (∀ a ∈ l, ∀ b ∈ l, R a b → S a b) → List.Chain' S l
  | [], _, _ => List.chain'_nil
  | [a], _, _ => List.chain'_singleton a
  | a :: b :: l, h, hm => by
      rw [List.chain'_cons] at h ⊢
      refine ⟨hm a (by simp) b (by simp) h.1, ?_⟩
      exact chain'_imp_mem (b :: l) h.2
        (fun u hu v hv hr => hm u (List.mem_cons_of_mem a hu) v (List.mem_cons_of_mem a hv) hr)

/-! ## Aggregation lemmas -/

theorem aggregatePages_keys (d : List (String × String)) :
    (aggregatePages d).map Prod.fst
      = (sortStrings ((d.map Prod.fst).filter (fun n => strEndsWith n "_res.json"))).map pathStem := by
  rw [aggregatePages, List.map_map]
  rfl

theorem mem_sorted_filter {x : String} {d : List (String × String)}
    (h : x ∈ sortStrings ((d.map Prod.fst).filter (fun n => strEndsWith n "_res.json"))) :
    x ∈ d.map Prod.fst ∧ strEndsWith x "_res.json" = true := by
  have hm := (sortStrings_perm _).mem_iff.mp h
  exact ⟨(List.mem_filter.mp hm).1, (List.mem_filter.mp hm).2⟩

theorem lookupFile_isSome_iff (d : List (String × String)) (n : String) :
    (lookupFile d n).isSome = true ↔ n ∈ d.map Prod.fst := by
  rw [lookupFile]
  rw [show ∀ o : Option (String × String), (o.map Prod.snd).isSome = o.isSome from fun o => by cases o <;> rfl]
  rw [List.find?_isSome]
  constructor
  · rintro ⟨x, hx, he⟩
    simp only [decide_eq_true_eq] at he
    exact he ▸ List.mem_map_of_mem Prod.fst hx
  · intro hx
    obtain ⟨p, hp, he⟩ := List.mem_map.mp hx
    exact ⟨p, hp, by simp [he]⟩

theorem aggregatePages_nodup {d : List (String × String)}
    (h : (d.map Prod.fst).Nodup) :
    ((aggregatePages d).map Prod.fst).Nodup := by
  rw [aggregatePages_keys]
  refine List.Nodup.map_on ?_ ?_
  · intro x hx y hy he
    exact pathStem_inj_res_json (mem_sorted_filter hx).2 (mem_sorted_filter hy).2 he
  · exact (sortStrings_perm _).nodup_iff.mpr (h.filter _)

/-! ## Base-name split lemmas -/

theorem last_occ {c : Char} : ∀ l : List Char, c ∈ l → ∃ l1 l2, l = l1 ++ c :: l2 ∧ c ∉ l2
  | [], h => absurd h (List.not_mem_nil c)
  | x :: xs, h => by
      by_cases hxs : c ∈ xs
      · obtain ⟨l1, l2, he, hn⟩ := last_occ xs hxs
        exact ⟨x :: l1, l2, by rw [he]; rfl, hn⟩
      · have hx : x = c := by
          rcases List.mem_cons.mp h with he | hm
          · exact he.symm
          · exact absurd hm hxs
        exact ⟨[], xs, by rw [hx]; rfl, hxs⟩

theorem baseNameOf_no_sep {pn : String} (h : '_' ∉ pn.data) : baseNameOf pn = pn := by
  rw [baseNameOf, splitOnChar, splitCharAux_no_sep '_' pn.data [] h]
  simp

theorem baseNameOf_last_sep {pn : String} (h : '_' ∈ pn.data) :
    ∃ tail : String, '_' ∉ tail.data ∧ pn = baseNameOf pn ++ "_" ++ tail := by
  obtain ⟨l1, l2, hdec, hni⟩ := last_occ pn.data h
  obtain ⟨init, hne, heq⟩ := splitCharAux_last '_' l2 hni l1 []
  rw [← hdec] at heq
  have hparts : splitOnChar '_' pn = (init ++ [l2]).map String.mk := by
    rw [splitOnChar, heq]
  have hjoin : joinChar '_' (init ++ [l2]) = pn.data := by
    have := joinChar_splitCharAux '_' pn.data []
    rw [heq] at this
    simpa using this
  rw [joinChar_concat '_' l2 init hne] at hjoin
  have hl1 : joinChar '_' init = l1 := by
    rw [hdec] at hjoin
    exact List.append_cancel_right hjoin
  have hbase : baseNameOf pn = String.mk l1 := by
    rw [baseNameOf, hparts]
    have hlen : ((init ++ [l2]).map String.mk).length = init.length + 1 := by simp
    rw [if_neg (by
      rw [hlen]
      cases init
      · exact absurd rfl hne
      · simp)]
    rw [List.map_append, List.map_cons, List.map_nil, List.dropLast_concat]
    rw [joinWithChar_map_mk, hl1]
  refine ⟨String.mk l2, hni, ?_⟩
  apply str_data_inj
  rw [String.data_append, String.data_append, hbase, hdec]
  simp

/-! ## Path disambiguation lemmas -/

theorem str_sandwich_inj (d s x y : String) (h : d ++ x ++ s = d ++ y ++ s) : x = y := by
  apply str_data_inj
  have hd := congrArg String.data h
  simp only [String.data_append, List.append_assoc] at hd
  exact List.append_cancel_right (List.append_cancel_left hd)

theorem md_path_ne_json_path (x y : String) : x ++ ".md" ≠ y ++ ".json" := by
  intro h
  have hd := congrArg (fun s : String => s.data.getLast?) h
  simp only [String.data_append] at hd
  rw [show (['.', 'm', 'd'] : List Char) = ['.', 'm'] ++ ['d'] from rfl] at hd
  rw [show (['.', 'j', 's', 'o', 'n'] : List Char) = ['.', 'j', 's', 'o'] ++ ['n'] from rfl] at hd
  rw [← List.append_assoc, ← List.append_assoc] at hd
  rw [List.getLast?_concat, List.getLast?_concat] at hd
  simp at hd

/-! ## Claim theorems -/

/-- C10: on both the single-file and the batch endpoint the
pipeline-readiness check precedes all input validation: while the pipeline
is uninitialized, every request is answered 503 with no staging and no
pipeline call, whatever the filenames, the extensions, or (for the batch
endpoint) even an empty file list. -/
theorem readiness_check_precedes_validation (run : PipelineRun)
    (file : UploadFile) (files : List UploadFile) :
    processFileEndpoint false run file = (.err 503, noEffects)
      ∧ processFilesEndpoint false run files = (.err 503, noEffects) :=
  ⟨rfl, rfl⟩

/-- C2: when at least one uploaded file of a batch has an extension outside
the allow-set, the batch endpoint rejects the whole request with a 400
error before any file is staged and before the pipeline is invoked: no
staging directory is created and no partial processing occurs. -/
theorem batch_invalid_extension_fail_fast (run : PipelineRun) (files : List UploadFile)
    (h : ∃ f ∈ files, fileExtOf f.filename ∉ ALLOWED_EXTENSIONS) :
    processFilesEndpoint true run files = (.err 400, noEffects) := by
  obtain ⟨f, hf, hext⟩ := h
  have hne : files.isEmpty = false := by
    cases files
    · exact absurd hf (List.not_mem_nil f)
    · rfl
  have hany : files.any (fun f => decide (fileExtOf f.filename ∉ ALLOWED_EXTENSIONS)) = true :=
    List.any_eq_true.mpr ⟨f, hf, by simpa using hext⟩
  rw [processFilesEndpoint]
  rw [if_neg (by simp), if_neg (by simp [hne]), if_pos hany]

/-- Witness for C2: a three-file batch whose second file has the invalid
extension .txt is rejected with 400 and no effects. -/
theorem batch_invalid_extension_fail_fast_witness :
    processFilesEndpoint true runEmpty
      [⟨some "a.pdf", ""⟩, ⟨some "b.txt", ""⟩, ⟨some "c.png", ""⟩] = (.err 400, noEffects) :=
  batch_invalid_extension_fail_fast runEmpty
    [⟨some "a.pdf", ""⟩, ⟨some "b.txt", ""⟩, ⟨some "c.png", ""⟩] (by decide)

/-- C3: the single-file endpoint passes validation (staging occurs and the
outcome is not a 400) exactly when the filename's suffix, lowercased, is
one of .pdf, .png, .jpg, .jpeg, .bmp, .tiff, .webp; any other suffix,
including the empty one, is rejected with 400 before any staging. -/
theorem single_extension_validation (run : PipelineRun) (file : UploadFile) :
    (lowerStr (pathSuffix (pathName (pyOr file.filename "")))
        ∈ ([".pdf", ".png", ".jpg", ".jpeg", ".bmp", ".tiff", ".webp"] : List String) →
      (processFileEndpoint true run file).2.stagingCreated = true
        ∧ (processFileEndpoint true run file).1 ≠ .err 400)
    ∧ (lowerStr (pathSuffix (pathName (pyOr file.filename "")))
        ∉ ([".pdf", ".png", ".jpg", ".jpeg", ".bmp", ".tiff", ".webp"] : List String) →
      processFileEndpoint true run file = (.err 400, noEffects)) := by
  have hall : ALLOWED_EXTENSIONS = [".pdf", ".png", ".jpg", ".jpeg", ".bmp", ".tiff", ".webp"] := rfl
  have hext : fileExtOf file.filename = lowerStr (pathSuffix (pathName (pyOr file.filename ""))) := rfl
  constructor
  · intro h
    rw [processFileEndpoint]
    rw [if_neg (by simp)]
    rw [if_neg (not_not_intro (by rw [hext, hall]; exact h))]
    cases hr : run [pathName (pyOr file.filename "upload")] <;> simp [hr]
  · intro h
    rw [processFileEndpoint]
    rw [if_neg (by simp), if_pos (by rw [hext, hall]; exact h)]

/-- Witness for C3: a .txt upload is rejected with 400 before staging, and
an uppercase .PDF upload passes validation with staging created. -/
theorem single_extension_validation_witness :
    processFileEndpoint true runEmpty ⟨some "a.txt", ""⟩ = (.err 400, noEffects)
      ∧ (processFileEndpoint true runEmpty ⟨some "b.PDF", ""⟩).2.stagingCreated = true :=
  ⟨(single_extension_validation runEmpty ⟨some "a.txt", ""⟩).2 (by decide),
   ((single_extension_validation runEmpty ⟨some "b.PDF", ""⟩).1 (by decide)).1⟩

/-- C1 (bug): for the spec's own example batch, a 2-page source a and a
1-page source b, the server's aggregation keys pages a_0_res, a_1_res,
b_res (the _res suffix of the structured artifact leaks into the page
name), so the client's regrouping, which splits on the last underscore,
produces the groups a_0, a_1, b instead of recovering the original
source-file partition a, b. -/
theorem regroup_aggregate_mismatch :
    ((regroupPages (aggregatePages (pipelineArtifacts [("a", 2), ("b", 1)]))).map Prod.fst
        = ["a_0", "a_1", "b"])
    ∧ ((originalPartition [("a", 2), ("b", 1)]).map Prod.fst = ["a", "b"])
    ∧ ((["a_0", "a_1", "b"] : List String) ≠ ["a", "b"]) :=
  ⟨by decide, by decide, by decide⟩

/-- C4 counterexample: a page for which only the markdown artifact exists
does not appear in the aggregated result at all (the aggregation
enumerates pages from the structured-data artifacts only), contradicting
the claim that such a page still appears with the missing representation
as None. -/
theorem md_only_page_dropped :
    aggregatePages [("p.md", "page text")] = [] := by decide

/-- C5 counterexample: two single-page sources submitted in the order b, a:
the pipeline's deterministic output order is b_res, a_res, but the adapter
returns the pages in sorted order a_res, b_res. -/
theorem adapter_order_not_submission_order :
    (aggregatePages (pipelineArtifacts [("b", 1), ("a", 1)])).map Prod.fst = ["a_res", "b_res"]
    ∧ pipelinePageOrder [("b", 1), ("a", 1)] = ["b_res", "a_res"]
    ∧ ((["a_res", "b_res"] : List String) ≠ ["b_res", "a_res"]) :=
  ⟨by decide, by decide, by decide⟩

/-- C7 counterexample: a page whose markdown field is present but equal to
the empty string produces no write at all, contradicting the claim that
markdown is written whenever present. -/
theorem empty_markdown_present_not_written :
    (save_results [("p", ⟨some "", none⟩)] "doc" "out").writes = [] := by decide

/-- C8: the client's regrouping computes the base name by splitting on the
last occurrence of the underscore separator: without an underscore the
base name is the whole page name; otherwise the page name decomposes as
base name, separator, and a trailing separator-free segment that is taken
as the page index with no numeric validation. -/
theorem base_name_splits_on_last_separator (pn : String) :
    ('_' ∉ pn.data → baseNameOf pn = pn)
    ∧ ('_' ∈ pn.data →
        ∃ tail : String, '_' ∉ tail.data ∧ pn = baseNameOf pn ++ "_" ++ tail) :=
  ⟨baseNameOf_no_sep, baseNameOf_last_sep⟩

/-- Witness for C8: the page name a_0_res splits into base a_0 and the
non-numeric trailing segment res. -/
theorem base_name_splits_on_last_separator_witness :
    ∃ tail : String, '_' ∉ tail.data ∧ "a_0_res" = baseNameOf "a_0_res" ++ "_" ++ tail :=
  (base_name_splits_on_last_separator "a_0_res").2 (by decide)

/-- C4 (amended): pages of the aggregated mapping are enumerated from the
structured-data artifacts, so every entry has its structured field
present; the markdown field is independently optional (present exactly
when the companion .md artifact exists, never an error), and every
structured artifact yields an entry — but a markdown-only page does not
appear at all. -/
theorem aggregate_optional_fields (outDir : List (String × String)) :
    (∀ e ∈ aggregatePages outDir,
        e.2.json.isSome = true
          ∧ (e.2.markdown.isSome = true ↔ (removeSuffix e.1 "_res" ++ ".md") ∈ outDir.map Prod.fst))
    ∧ (∀ n ∈ outDir.map Prod.fst, strEndsWith n "_res.json" = true →
        pathStem n ∈ (aggregatePages outDir).map Prod.fst) := by
  constructor
  · intro e he
    simp only [aggregatePages] at he
    obtain ⟨jf, hjf, hfe⟩ := List.mem_map.mp he
    subst hfe
    refine ⟨?_, lookupFile_isSome_iff _ _⟩
    exact (lookupFile_isSome_iff _ _).mpr (mem_sorted_filter hjf).1
  · intro n hn hend
    rw [aggregatePages_keys]
    exact List.mem_map_of_mem pathStem
      ((sortStrings_perm _).mem_iff.mpr (List.mem_filter.mpr ⟨hn, by simpa using hend⟩))

/-- Witness for C4 (amended): a directory holding a_res.json and its
markdown companion a.md yields the entry a_res with both fields present,
the markdown presence being equivalent to the companion's existence. -/
theorem aggregate_optional_fields_witness :
    (some "j" : Option String).isSome = true
      ∧ ((some "m" : Option String).isSome = true
          ↔ (removeSuffix "a_res" "_res" ++ ".md") ∈ (["a_res.json", "a.md"] : List String)) :=
  (aggregate_optional_fields [("a_res.json", "j"), ("a.md", "m")]).1
    ("a_res", ⟨some "j", some "m"⟩) (by decide)

/-- C5 (amended): the ordered list of page results produced by the adapter
is sorted by the lexicographic code-point order of the structured artifact
file names (page name followed by ".json"), i.e. sorted-glob order — it
matches the pipeline's submission order only when that order happens to be
lexicographic, not in general. -/
theorem adapter_output_sorted_by_artifact_name (outDir : List (String × String)) :
    List.Chain' (fun a b => strLe (a ++ ".json") (b ++ ".json") = true)
      ((aggregatePages outDir).map Prod.fst) := by
  rw [aggregatePages_keys, List.chain'_map]
  refine chain'_imp_mem _ (sortStrings_chain _) ?_
  intro a ha b hb hr
  rw [← pathStem_res_json (mem_sorted_filter ha).2, ← pathStem_res_json (mem_sorted_filter hb).2]
  exact hr

/-- C6: whenever the pipeline writes artifacts with distinct file names, a
successful response of either endpoint has page_count equal to the number
of entries of its pages mapping, and the page_name keys are pairwise
distinct across the whole response. -/
theorem page_count_matches_and_keys_unique (run : PipelineRun)
    (hrun : ∀ ps arts, run ps = Except.ok arts → (arts.map Prod.fst).Nodup) :
    (∀ (file : UploadFile) (resp : OCRResponse) (eff : Effects),
        processFileEndpoint true run file = (.ok resp, eff) →
          resp.page_count = resp.pages.length ∧ (resp.pages.map Prod.fst).Nodup)
    ∧ (∀ (files : List UploadFile) (resp : BatchOCRResponse) (eff : Effects),
        processFilesEndpoint true run files = (.ok resp, eff) →
          resp.page_count = resp.pages.length ∧ (resp.pages.map Prod.fst).Nodup) := by
  constructor
  · intro file resp eff h
    rw [processFileEndpoint, if_neg (by simp)] at h
    by_cases hv : fileExtOf file.filename ∈ ALLOWED_EXTENSIONS
    · rw [if_neg (not_not_intro hv)] at h
      dsimp only at h
      cases hr : run [pathName (pyOr file.filename "upload")] with
      | ok arts =>
          rw [hr] at h
          simp only [Prod.mk.injEq, SingleResult.ok.injEq] at h
          obtain ⟨h1, _⟩ := h
          subst h1
          exact ⟨rfl, aggregatePages_nodup (hrun _ _ hr)⟩
      | error e =>
          rw [hr] at h
          simp at h
    · rw [if_pos hv] at h
      simp at h
  · intro files resp eff h
    rw [processFilesEndpoint, if_neg (by simp)] at h
    by_cases he : files.isEmpty
    · rw [if_pos he] at h
      simp at h
    · rw [if_neg he] at h
      by_cases hv : files.any (fun f => decide (fileExtOf f.filename ∉ ALLOWED_EXTENSIONS)) = true
      · rw [if_pos hv] at h
        simp at h
      · rw [if_neg hv] at h
        dsimp only at h
        cases hr : run (stageNames files) with
        | ok arts =>
            rw [hr] at h
            simp only [Prod.mk.injEq, BatchResult.ok.injEq] at h
            obtain ⟨h1, _⟩ := h
            subst h1
            exact ⟨rfl, aggregatePages_nodup (hrun _ _ hr)⟩
        | error e =>
            rw [hr] at h
            simp at h

/-- Witness for C6: a single-file batch with a pipeline that writes one
artifact yields a response whose page_count is the size of its pages
mapping and whose single key is trivially duplicate-free. -/
theorem page_count_matches_and_keys_unique_witness :
    (⟨["a.pdf"], 1, [("doc_res", ⟨some "json-of-doc", some "md-of-doc"⟩)]⟩
        : BatchOCRResponse).page_count
      = (⟨["a.pdf"], 1, [("doc_res", ⟨some "json-of-doc", some "md-of-doc"⟩)]⟩
        : BatchOCRResponse).pages.length
    ∧ (((⟨["a.pdf"], 1, [("doc_res", ⟨some "json-of-doc", some "md-of-doc"⟩)]⟩
        : BatchOCRResponse).pages.map Prod.fst)).Nodup :=
  (page_count_matches_and_keys_unique runOneDoc
      (fun ps arts h => by
        simp only [runOneDoc] at h
        injection h with h2
        rw [← h2]
        decide)).2
    [⟨some "a.pdf", ""⟩]
    ⟨["a.pdf"], 1, [("doc_res", ⟨some "json-of-doc", some "md-of-doc"⟩)]⟩
    ⟨true, ["a.pdf"], true⟩ (by decide)

/-- C7 (amended): the persistence writer creates (idempotently — an already
existing directory is left unchanged and is not an error) the subdirectory
output_root/base_name and, for every page, writes the markdown to
<page_name>.md when present and truthy (non-empty) and the structured data
to <page_name>.json when present and truthy (non-empty), serialized with
ensure_ascii=False and two-space indentation; the two artifacts are
written independently of each other's presence. -/
theorem save_results_writes_artifacts (pages : List (String × ClientPageData))
    (base_name output_root : String) :
    (save_results pages base_name output_root).createdDir = output_root ++ "/" ++ base_name
    ∧ (∀ ds : List String,
        mkdirExistOk (mkdirExistOk ds (output_root ++ "/" ++ base_name))
            (output_root ++ "/" ++ base_name)
          = mkdirExistOk ds (output_root ++ "/" ++ base_name)
        ∧ (output_root ++ "/" ++ base_name) ∈ mkdirExistOk ds (output_root ++ "/" ++ base_name))
    ∧ (∀ pn pd, (pn, pd) ∈ pages → ∀ m, pd.markdown = some m → m ≠ "" →
        (output_root ++ "/" ++ base_name ++ "/" ++ pn ++ ".md", m)
          ∈ (save_results pages base_name output_root).writes)
    ∧ (∀ pn pd, (pn, pd) ∈ pages → ∀ j, pd.json = some j → pythonTruthy j = true →
        (output_root ++ "/" ++ base_name ++ "/" ++ pn ++ ".json", pyDumps j)
          ∈ (save_results pages base_name output_root).writes) := by
  refine ⟨rfl, ?_, ?_, ?_⟩
  · intro ds
    by_cases hd : (output_root ++ "/" ++ base_name) ∈ ds
    · constructor
      · simp [mkdirExistOk, hd]
      · simp [mkdirExistOk, hd]
    · constructor
      · simp [mkdirExistOk, hd]
      · simp [mkdirExistOk, hd]
  · intro pn pd hmem m hm hne
    simp only [save_results]
    refine List.mem_flatMap.mpr ⟨(pn, pd), hmem, ?_⟩
    rw [pageWrites]
    refine List.mem_append.mpr (Or.inl ?_)
    rw [hm]
    dsimp only
    rw [if_pos hne]
    exact List.mem_singleton.mpr rfl
  · intro pn pd hmem j hj ht
    simp only [save_results]
    refine List.mem_flatMap.mpr ⟨(pn, pd), hmem, ?_⟩
    rw [pageWrites]
    refine List.mem_append.mpr (Or.inr ?_)
    rw [hj]
    dsimp only
    rw [if_pos ht]
    exact List.mem_singleton.mpr rfl

/-- Witness for C7 (amended): one page with a non-empty markdown and a
truthy structured document produces both artifact writes under the page's
subdirectory. -/
theorem save_results_writes_artifacts_witness :
    ("out" ++ "/" ++ "doc" ++ "/" ++ "p" ++ ".md", "hello")
      ∈ (save_results [("p", ⟨some "hello", some (PyJson.obj [("k", PyJson.num 1)])⟩)]
          "doc" "out").writes
    ∧ ("out" ++ "/" ++ "doc" ++ "/" ++ "p" ++ ".json",
        pyDumps (PyJson.obj [("k", PyJson.num 1)]))
      ∈ (save_results [("p", ⟨some "hello", some (PyJson.obj [("k", PyJson.num 1)])⟩)]
          "doc" "out").writes :=
  ⟨(save_results_writes_artifacts
      [("p", ⟨some "hello", some (PyJson.obj [("k", PyJson.num 1)])⟩)] "doc" "out").2.2.1
      "p" ⟨some "hello", some (PyJson.obj [("k", PyJson.num 1)])⟩
      (List.Mem.head _) "hello" rfl (by decide),
   (save_results_writes_artifacts
      [("p", ⟨some "hello", some (PyJson.obj [("k", PyJson.num 1)])⟩)] "doc" "out").2.2.2
      "p" ⟨some "hello", some (PyJson.obj [("k", PyJson.num 1)])⟩
      (List.Mem.head _) (PyJson.obj [("k", PyJson.num 1)]) rfl rfl⟩

/-- Every write of pageWrites is either the page's markdown artifact (for a
present, non-empty markdown) or the page's structured artifact (for a
present, truthy structured document). -/
theorem mem_pageWrites {dir : String} {q : String × ClientPageData} {w : String × String}
    (h : w ∈ pageWrites dir q) :
    (∃ m, q.2.markdown = some m ∧ m ≠ "" ∧ w = (dir ++ "/" ++ q.1 ++ ".md", m))
    ∨ (∃ j, q.2.json = some j ∧ pythonTruthy j = true
        ∧ w = (dir ++ "/" ++ q.1 ++ ".json", pyDumps j)) := by
  rw [pageWrites] at h
  rcases List.mem_append.mp h with h1 | h1
  · left
    cases hm : q.2.markdown with
    | none => rw [hm] at h1; exact absurd h1 (List.not_mem_nil w)
    | some m =>
        rw [hm] at h1
        dsimp only at h1
        by_cases hne : m ≠ ""
        · rw [if_pos hne] at h1
          exact ⟨m, rfl, hne, List.mem_singleton.mp h1⟩
        · rw [if_neg hne] at h1
          exact absurd h1 (List.not_mem_nil w)
  · right
    cases hj : q.2.json with
    | none => rw [hj] at h1; exact absurd h1 (List.not_mem_nil w)
    | some j =>
        rw [hj] at h1
        dsimp only at h1
        by_cases ht : pythonTruthy j = true
        · rw [if_pos ht] at h1
          exact ⟨j, rfl, ht, List.mem_singleton.mp h1⟩
        · rw [if_neg ht] at h1
          exact absurd h1 (List.not_mem_nil w)

/-- C9: save_results tests presence by Python truthiness, not by non-None:
a page whose markdown is present but empty yields no .md file, and a page
whose structured document is present but the empty object yields no .json
file — empty-but-present representations are silently dropped. -/
theorem persistence_truthiness_gating (pages : List (String × ClientPageData))
    (base_name output_root pn : String) (pd : ClientPageData)
    (hnd : (pages.map Prod.fst).Nodup) (hmem : (pn, pd) ∈ pages) :
    (pd.markdown = some "" →
        (output_root ++ "/" ++ base_name ++ "/" ++ pn ++ ".md")
          ∉ ((save_results pages base_name output_root).writes.map Prod.fst))
    ∧ (pd.json = some (PyJson.obj []) →
        (output_root ++ "/" ++ base_name ++ "/" ++ pn ++ ".json")
          ∉ ((save_results pages base_name output_root).writes.map Prod.fst)) := by
  constructor
  · intro hmd hpath
    simp only [save_results] at hpath
    obtain ⟨w, hw, hwp⟩ := List.mem_map.mp hpath
    obtain ⟨q, hq, hwq⟩ := List.mem_flatMap.mp hw
    rcases mem_pageWrites hwq with ⟨m, hqm, hmne, hweq⟩ | ⟨j, hqj, hjt, hweq⟩
    · rw [hweq] at hwp
      have hq1 : q.1 = pn := str_sandwich_inj _ ".md" q.1 pn hwp
      have hqe : (pn, pd) = q :=
        List.inj_on_of_nodup_map hnd hmem hq (by rw [hq1])
      have hpd : pd = q.2 := congrArg Prod.snd hqe
      have : pd.markdown = some m := by rw [hpd]; exact hqm
      rw [hmd] at this
      exact hmne (Option.some.inj this).symm
    · rw [hweq] at hwp
      exact md_path_ne_json_path _ _ hwp.symm
  · intro hjs hpath
    simp only [save_results] at hpath
    obtain ⟨w, hw, hwp⟩ := List.mem_map.mp hpath
    obtain ⟨q, hq, hwq⟩ := List.mem_flatMap.mp hw
    rcases mem_pageWrites hwq with ⟨m, hqm, hmne, hweq⟩ | ⟨j, hqj, hjt, hweq⟩
    · rw [hweq] at hwp
      exact md_path_ne_json_path _ _ hwp
    · rw [hweq] at hwp
      have hq1 : q.1 = pn := str_sandwich_inj _ ".json" q.1 pn hwp
      have hqe : (pn, pd) = q :=
        List.inj_on_of_nodup_map hnd hmem hq (by rw [hq1])
      have hpd : pd = q.2 := congrArg Prod.snd hqe
      have : pd.json = some j := by rw [hpd]; exact hqj
      rw [hjs] at this
      rw [← Option.some.inj this] at hjt
      exact absurd hjt (by decide)

/-- Witness for C9: a single page with markdown present-but-empty and the
empty structured object produces neither artifact path. -/
theorem persistence_truthiness_gating_witness :
    (("out" ++ "/" ++ "doc" ++ "/" ++ "p" ++ ".md")
        ∉ ((save_results [("p", ⟨some "", some (PyJson.obj [])⟩)] "doc" "out").writes.map Prod.fst))
    ∧ (("out" ++ "/" ++ "doc" ++ "/" ++ "p" ++ ".json")
        ∉ ((save_results [("p", ⟨some "", some (PyJson.obj [])⟩)] "doc" "out").writes.map Prod.fst)) :=
  ⟨(persistence_truthiness_gating [("p", ⟨some "", some (PyJson.obj [])⟩)] "doc" "out" "p"
      ⟨some "", some (PyJson.obj [])⟩ (by simp) (List.Mem.head _)).1 rfl,
   (persistence_truthiness_gating [("p", ⟨some "", some (PyJson.obj [])⟩)] "doc" "out" "p"
      ⟨some "", some (PyJson.obj [])⟩ (by simp) (List.Mem.head _)).2 rfl⟩
